import Mathlib

/-!
Verification of the task-tracker client store, its sync bridge, and the
persistence server, embedded shallowly from the TypeScript sources.

The repository contains two revisions of the store:
* the field-on-Task variant (`Task.groupId : string | undefined`), embedded
  below with an `F` suffix;
* the list-on-Group variant (`Group.taskIds : string[]`), embedded with an
  `L` suffix.

Zustand's `set` applies a producer to the current state and then merges the
returned partial object into the state *as it stands after the producer ran*
(`Object.assign({}, state, nextState)`).  Nested `set` calls made inside a
producer therefore take effect immediately, but any key they touched is
overwritten if the outer producer's return value also contains that key.
The embeddings of `deleteGroup` (field variant) and `deleteTask` (list
variant) reproduce this merge order faithfully.
-/

/-- JavaScript whitespace as used by `String.prototype.trim`
(space, tab, LF, CR, VT, FF, NBSP, BOM). -/
def jsWhitespace (c : Char) : Bool :=
  c == ' ' || c == '\t' || c == '\n' || c == '\r' ||
  c == '\x0b' || c == '\x0c' || c == ' ' || c == '﻿'

/-- Embedding of JavaScript `String.prototype.trim`. -/
def jsTrim (s : String) : String :=
  String.mk (((s.data.dropWhile jsWhitespace).reverse.dropWhile jsWhitespace).reverse)

/-- `findIndex` + copy + write-back at the found index, as the store code does
everywhere: replace the first element satisfying `p` by its image under `f`. -/
def updateFirst (p : α → Bool) (f : α → α) : List α → List α
  | [] => []
  | x :: xs => if p x then f x :: xs else x :: updateFirst p f xs

theorem updateFirst_nil (p : α → Bool) (f : α → α) : updateFirst p f [] = [] := rfl

theorem updateFirst_cons (p : α → Bool) (f : α → α) (x : α) (xs : List α) :
    updateFirst p f (x :: xs) = if p x then f x :: xs else x :: updateFirst p f xs := rfl

theorem mem_updateFirst {p : α → Bool} {f : α → α} {l : List α} {y : α}
    (h : y ∈ updateFirst p f l) : y ∈ l ∨ ∃ x, x ∈ l ∧ p x = true ∧ y = f x := by
  induction l with
  | nil => simp [updateFirst] at h
  | cons x xs ih =>
    rw [updateFirst_cons] at h
    by_cases hp : p x = true
    · rw [if_pos hp] at h
      rcases List.mem_cons.mp h with h | h
      · exact Or.inr ⟨x, List.mem_cons_self .., hp, h⟩
      · exact Or.inl (List.mem_cons_of_mem _ h)
    · rw [if_neg hp] at h
      rcases List.mem_cons.mp h with h | h
      · exact Or.inl (h ▸ List.mem_cons_self ..)
      · rcases ih h with h | ⟨z, hz, hpz, hy⟩
        · exact Or.inl (List.mem_cons_of_mem _ h)
        · exact Or.inr ⟨z, List.mem_cons_of_mem _ hz, hpz, hy⟩

/-- If `f` preserves the key, `updateFirst` preserves the key sequence. -/
theorem map_key_updateFirst (key : α → κ) (p : α → Bool) (f : α → α)
    (hf : ∀ x, key (f x) = key x) (l : List α) :
    (updateFirst p f l).map key = l.map key := by
  induction l with
  | nil => rfl
  | cons x xs ih =>
    rw [updateFirst_cons]
    by_cases hp : p x = true
    · simp [if_pos hp, hf]
    · simp [if_neg hp, ih]

/-- With no duplicate keys, updating the first element whose key is `k`
is the same as updating every element whose key is `k`. -/
theorem updateFirst_eq_map_of_nodup (key : α → String) {f : α → α} {l : List α}
    (hnd : (l.map key).Nodup) (k : String) :
    updateFirst (fun x => key x == k) f l =
      l.map (fun x => if key x = k then f x else x) := by
  induction l with
  | nil => rfl
  | cons x xs ih =>
    rw [List.map_cons] at hnd
    rw [updateFirst_cons, List.map_cons]
    by_cases hp : key x = k
    · rw [if_pos (by simpa using hp), if_pos hp]
      have hx : key x ∉ xs.map key := (List.nodup_cons.mp hnd).1
      have : xs.map (fun y => if key y = k then f y else y) = xs.map id := by
        apply List.map_congr_left
        intro y hy
        have : key y ≠ k := by
          intro hkk
          exact hx (hp ▸ hkk ▸ List.mem_map_of_mem key hy)
        simp [if_neg this]
      rw [this, List.map_id]
    · rw [if_neg (by simpa using hp), if_neg hp, ih (List.nodup_cons.mp hnd).2]

/-- Deleting by key removes exactly one element when keys are unique
and the key is present (this is the `length === length - 1` assertion). -/
theorem length_filter_key_ne (key : α → String) {l : List α}
    (hnd : (l.map key).Nodup) {k : String} (hk : k ∈ l.map key) :
    (l.filter (fun x => key x != k)).length = l.length - 1 := by
  induction l with
  | nil => simp at hk
  | cons x xs ih =>
    rw [List.map_cons] at hnd hk
    by_cases hp : key x = k
    · have hx : key x ∉ xs.map key := (List.nodup_cons.mp hnd).1
      have hall : xs.filter (fun y => key y != k) = xs := by
        apply List.filter_eq_self.mpr
        intro y hy
        have : key y ≠ k := by
          intro hkk
          exact hx (hp ▸ hkk ▸ List.mem_map_of_mem key hy)
        simpa using this
      simp [List.filter_cons, hp, hall]
    · have hk' : k ∈ xs.map key := by
        rcases List.mem_cons.mp hk with h | h
        · exact absurd h.symm hp
        · exact h
      have hlen := ih (List.nodup_cons.mp hnd).2 hk'
      have hne : xs.length ≠ 0 := by
        intro h0
        rw [List.length_eq_zero.mp h0] at hk'
        simp at hk'
      rw [List.filter_cons, if_pos (by simpa using hp)]
      simp only [List.length_cons, hlen]
      omega

/-- If keys are unique, two members with the same key are the same member. -/
theorem eq_of_mem_of_key_eq (key : α → String) {l : List α}
    (hnd : (l.map key).Nodup) {x y : α} (hx : x ∈ l) (hy : y ∈ l)
    (hxy : key x = key y) : x = y :=
  List.inj_on_of_nodup_map hnd hx hy hxy

/-! ## Field-on-Task store variant (Task carries `groupId`)

Embedded from the zustand store in `App.tsx` / the first revision:
`addTask`, `updateTask`, `deleteTask`, `addGroup`, `updateGroup`,
`deleteGroup`, `setTaskGroup`.  `crypto.randomUUID()` is modelled as an
id supplied by the environment (`newId` argument); assertion failures are
modelled with `Except.error`. -/

structure TaskF where
  id : String
  title : String
  value : Option String := none
  upgrade : Option Bool := none
  groupId : Option String := none
deriving Repr, DecidableEq

structure GroupF where
  id : String
  name : String
deriving Repr, DecidableEq

structure StateF where
  tasks : List TaskF
  groups : List GroupF
deriving Repr, DecidableEq

/-- The `Omit<Task, "id">` argument of `addTask` (its `groupId` member, if
any, is overwritten by the explicit `groupId` parameter in the source). -/
structure TaskInputF where
  title : String
  value : Option String := none
  upgrade : Option Bool := none
deriving Repr, DecidableEq

/-- `Partial<Omit<Task, "id">>`: a key absent from the patch is `none`;
a key present with value `undefined` is `some none`. -/
structure TaskPatchF where
  title : Option String := none
  value : Option (Option String) := none
  upgrade : Option (Option Bool) := none
  groupId : Option (Option String) := none
deriving Repr, DecidableEq

/-- `Partial<Omit<Group, "id">>` for the field variant. -/
structure GroupPatchF where
  name : Option String := none
deriving Repr, DecidableEq

def taskIdsF (s : StateF) : List String := s.tasks.map (·.id)

def groupIdsF (s : StateF) : List String := s.groups.map (·.id)

/-- `{...task, ...newTask}` spread merge. -/
def applyTaskPatchF (t : TaskF) (p : TaskPatchF) : TaskF :=
  { id := t.id
    title := p.title.getD t.title
    value := p.value.getD t.value
    upgrade := p.upgrade.getD t.upgrade
    groupId := p.groupId.getD t.groupId }

def applyGroupPatchF (g : GroupF) (p : GroupPatchF) : GroupF :=
  { id := g.id, name := p.name.getD g.name }

def emptyStateF : StateF := { tasks := [], groups := [] }

/-- `addTask(task, groupId?)`: no-op when the trimmed title is empty,
otherwise append a task with the environment-chosen id and the `groupId`
parameter (the source overwrites any `groupId` in the input object). -/
def addTaskF (newId : String) (inp : TaskInputF) (gid : Option String) (s : StateF) : StateF :=
  if jsTrim inp.title = "" then s
  else { s with tasks := s.tasks ++
          [{ id := newId, title := inp.title, value := inp.value,
             upgrade := inp.upgrade, groupId := gid }] }

/-- `updateTask(id, newTask)`: asserts the task exists, then merges the
patch into the first task with that id. -/
def updateTaskF (id : String) (p : TaskPatchF) (s : StateF) : Except String StateF :=
  if s.tasks.any (·.id == id) then
    .ok { s with tasks := updateFirst (·.id == id) (applyTaskPatchF · p) s.tasks }
  else .error "Assertion failed"

/-- `deleteTask(id)` (field variant): asserts existence, filters the task out,
and asserts exactly one task was removed. -/
def deleteTaskF (id : String) (s : StateF) : Except String StateF :=
  if s.tasks.any (·.id == id) then
    let newTasks := s.tasks.filter (fun t => t.id != id)
    if newTasks.length = s.tasks.length - 1 then
      .ok { s with tasks := newTasks }
    else .error "Assertion failed"
  else .error "Assertion failed"

/-- `addGroup(name)`: appends unconditionally (no name validation). -/
def addGroupF (newId : String) (name : String) (s : StateF) : StateF :=
  { s with groups := s.groups ++ [{ id := newId, name := name }] }

/-- `updateGroup(id, newGroup)`. -/
def updateGroupF (id : String) (p : GroupPatchF) (s : StateF) : Except String StateF :=
  if s.groups.any (·.id == id) then
    .ok { s with groups := updateFirst (·.id == id) (applyGroupPatchF · p) s.groups }
  else .error "Assertion failed"

/-- `setTaskGroup(taskId, groupId)`: asserts the task exists and overwrites
its `groupId`; the target group is never validated. -/
def setTaskGroupF (taskId : String) (gid : Option String) (s : StateF) : Except String StateF :=
  if s.tasks.any (·.id == taskId) then
    .ok { s with tasks := updateFirst (·.id == taskId)
                   (fun t => { t with groupId := gid }) s.tasks }
  else .error "Assertion failed"

/-- `deleteGroup(id)` (field variant).  Inside the producer the source calls
`get().setTaskGroup(...)` for each task that referenced the group (these
nested `set`s update `tasks` immediately), then returns `{groups: newGroups}`,
which the outer merge applies over the state left by the nested calls. -/
def deleteGroupF (id : String) (s : StateF) : Except String StateF :=
  if s.groups.any (·.id == id) then
    let newGroups := s.groups.filter (fun g => g.id != id)
    if newGroups.length = s.groups.length - 1 then
      let tasksToUngroup := s.tasks.filter (fun t => t.groupId == some id)
      (tasksToUngroup.foldlM (fun st t => setTaskGroupF t.id none st) s).map
        (fun s1 => { s1 with groups := newGroups })
    else .error "Assertion failed"
  else .error "Assertion failed"

def exOk : Except String α → Bool
  | .ok _ => true
  | .error _ => false

/-- A task's group reference, if set, names a present group. -/
def taskRefOkF (groupIds : List String) (t : TaskF) : Bool :=
  match t.groupId with
  | none => true
  | some g => groupIds.contains g

/-- No dangling reference, field variant: every `groupId` held by a task
names a group currently in the store. -/
def noDanglingF (s : StateF) : Bool :=
  s.tasks.all (taskRefOkF (groupIdsF s))

/-! ## List-on-Group store variant (Group carries `taskIds`)

Embedded from the second revision of the store: `addTask`, `updateTask`,
`deleteTask` (with its membership/empty-group cascade), `addGroup`,
`updateGroup`, `deleteGroup`, `addTaskToGroup`, `removeTaskFromGroup`. -/

structure TaskL where
  id : String
  title : String
  value : Option String := none
  upgrade : Option Bool := none
deriving Repr, DecidableEq

structure GroupL where
  id : String
  name : String
  taskIds : List String
deriving Repr, DecidableEq

structure StateL where
  tasks : List TaskL
  groups : List GroupL
deriving Repr, DecidableEq

structure TaskInputL where
  title : String
  value : Option String := none
  upgrade : Option Bool := none
deriving Repr, DecidableEq

structure TaskPatchL where
  title : Option String := none
  value : Option (Option String) := none
  upgrade : Option (Option Bool) := none
deriving Repr, DecidableEq

/-- `Partial<Omit<Group, "id">>` for the list variant (it includes
`taskIds`). -/
structure GroupPatchL where
  name : Option String := none
  taskIds : Option (List String) := none
deriving Repr, DecidableEq

def taskIdsL (s : StateL) : List String := s.tasks.map (·.id)

def groupIdsL (s : StateL) : List String := s.groups.map (·.id)

def applyTaskPatchL (t : TaskL) (p : TaskPatchL) : TaskL :=
  { id := t.id
    title := p.title.getD t.title
    value := p.value.getD t.value
    upgrade := p.upgrade.getD t.upgrade }

def applyGroupPatchL (g : GroupL) (p : GroupPatchL) : GroupL :=
  { id := g.id, name := p.name.getD g.name, taskIds := p.taskIds.getD g.taskIds }

def emptyStateL : StateL := { tasks := [], groups := [] }

def addTaskL (newId : String) (inp : TaskInputL) (s : StateL) : StateL :=
  if jsTrim inp.title = "" then s
  else { s with tasks := s.tasks ++
          [{ id := newId, title := inp.title, value := inp.value, upgrade := inp.upgrade }] }

def updateTaskL (id : String) (p : TaskPatchL) (s : StateL) : Except String StateL :=
  if s.tasks.any (·.id == id) then
    .ok { s with tasks := updateFirst (·.id == id) (applyTaskPatchL · p) s.tasks }
  else .error "Assertion failed"

/-- `deleteTask(id)` (list variant).  The producer removes the task, strips
its id from every membership list, and then issues one nested `set` per
now-empty group to delete it.  Those nested `set`s update `groups`
immediately, but the producer's own return value `{tasks, groups}` is merged
afterwards and its `groups` key (`newGroups`, which still contains the
emptied groups) overwrites the nested deletions. -/
def deleteTaskL (id : String) (s : StateL) : Except String StateL :=
  if s.tasks.any (·.id == id) then
    let newTasks := s.tasks.filter (fun t => t.id != id)
    if newTasks.length = s.tasks.length - 1 then
      let newGroups := s.groups.map (fun g => { g with taskIds := g.taskIds.filter (fun tid => tid != id) })
      let groupsToDelete := newGroups.filter (fun g => g.taskIds.isEmpty)
      let sMid := groupsToDelete.foldl
        (fun st g => { st with groups := st.groups.filter (fun g2 => g2.id != g.id) }) s
      .ok { sMid with tasks := newTasks, groups := newGroups }
    else .error "Assertion failed"
  else .error "Assertion failed"

def addGroupL (newId : String) (name : String) (s : StateL) : StateL :=
  { s with groups := s.groups ++ [{ id := newId, name := name, taskIds := [] }] }

def updateGroupL (id : String) (p : GroupPatchL) (s : StateL) : Except String StateL :=
  if s.groups.any (·.id == id) then
    .ok { s with groups := updateFirst (·.id == id) (applyGroupPatchL · p) s.groups }
  else .error "Assertion failed"

/-- `deleteGroup(id)` (list variant): removes only the group; memberships
die with the record. -/
def deleteGroupL (id : String) (s : StateL) : Except String StateL :=
  if s.groups.any (·.id == id) then
    let newGroups := s.groups.filter (fun g => g.id != id)
    if newGroups.length = s.groups.length - 1 then
      .ok { s with groups := newGroups }
    else .error "Assertion failed"
  else .error "Assertion failed"

/-- `addTaskToGroup(taskId, groupId)`: asserts the group exists; appends the
task id to the first matching group's list unless already present.  The
task id itself is never validated. -/
def appendMemberL (taskId : String) (g : GroupL) : GroupL :=
  if g.taskIds.contains taskId then g
  else { g with taskIds := g.taskIds ++ [taskId] }

def addTaskToGroupL (taskId : String) (groupId : String) (s : StateL) : Except String StateL :=
  if s.groups.any (·.id == groupId) then
    .ok { s with groups := updateFirst (·.id == groupId) (appendMemberL taskId) s.groups }
  else .error "Assertion failed"

/-- `removeTaskFromGroup(taskId, groupId)`: asserts the group exists;
filters the task id out of the first matching group's list. -/
def dropMemberL (taskId : String) (g : GroupL) : GroupL :=
  { g with taskIds := g.taskIds.filter (fun tid => tid != taskId) }

def removeTaskFromGroupL (taskId : String) (groupId : String) (s : StateL) : Except String StateL :=
  if s.groups.any (·.id == groupId) then
    .ok { s with groups := updateFirst (·.id == groupId) (dropMemberL taskId) s.groups }
  else .error "Assertion failed"

/-- No dangling reference, list variant: every task id in every group's
membership list names a task currently in the store. -/
def noDanglingL (s : StateL) : Bool :=
  s.groups.all (fun g => g.taskIds.all (fun tid => (taskIdsL s).contains tid))

def findGroupL (groupId : String) (s : StateL) : Option GroupL :=
  s.groups.find? (·.id == groupId)

/-! ## Remote persistence service

Embedded from the final server revision (the one whose request schema —
`{id, data, apikey}` — matches the client's `putGroup`): a `groups` table
keyed by `id TEXT PRIMARY KEY`, `GET /api/groups` and `PUT /api/groups`.
The database is a list of `(id, row)` pairs whose keys are unique (the
primary key); timestamps (`new Date().toISOString()`) are modelled as a
`now : Nat` supplied by the environment. -/

structure RowSV where
  created_at : Nat
  updated_at : Nat
  data : Option String := none
deriving Repr, DecidableEq

def DBSV := List (String × RowSV)

/-- `SELECT * FROM groups WHERE id = ...` and taking `result[0]`. -/
def sqlSelectSV (id : String) (db : DBSV) : Option RowSV :=
  (db.find? (fun p => p.1 == id)).map (·.2)

/-- `UPDATE groups SET data = ..., updated_at = ... WHERE id = ...`:
touches every row whose key matches (zero or one, by primary key),
and never fails. -/
def sqlUpdateSV (id : String) (d : String) (now : Nat) (db : DBSV) : DBSV :=
  db.map (fun p =>
    if p.1 == id then (p.1, { p.2 with data := some d, updated_at := now }) else p)

/-- Body of `PUT /api/groups` after `putSchema.parse`. -/
structure PutBodySV where
  id : String
  data : String
  apikey : String
deriving Repr, DecidableEq

inductive PutResultSV where
  | unauthorized
  | created (row : Option RowSV)
deriving Repr, DecidableEq

/-- The `PUT /api/groups` handler: credential check, `UPDATE`, re-`SELECT`,
then a 201 response carrying `result[0]` (possibly no row at all). -/
def putGroupsSV (envKey : String) (body : PutBodySV) (now : Nat) (db : DBSV) :
    PutResultSV × DBSV :=
  if body.apikey != envKey then (.unauthorized, db)
  else
    let db1 := sqlUpdateSV body.id body.data now db
    (.created (sqlSelectSV body.id db1), db1)

inductive GetResultSV where
  | unauthorized
  | one (row : Option (String × RowSV))
  | all (rows : List (String × RowSV))
deriving Repr, DecidableEq

/-- The `GET /api/groups` handler: credential check from the query string,
then `if (id)` — a present, non-empty `id` selects one row, anything else
(`null` or `""`, both falsy) selects the whole table. -/
def getGroupsSV (envKey : String) (apikey : Option String) (idParam : Option String)
    (db : DBSV) : GetResultSV :=
  if apikey != some envKey then .unauthorized
  else if (idParam.getD "") != "" then
    .one (db.find? (fun p => p.1 == idParam.getD ""))
  else .all db

/-! ## Sync bridge

Embedded from `useApiSync` and `debounce` in the first revision (the only
one with a sync bridge).  `debouncedPutGroup = debounce(putGroup, 1000)` has
a single timer slot; every effect run re-arms it with the snapshot current
at that moment.  The load effect records when the initial `GET` settles;
nothing in the write path consults it.  Events are processed in time order;
a pending timer due at or before the next observed instant fires first. -/

structure TimerB where
  fireAt : Nat
  snap : StateF
deriving Repr, DecidableEq

/-- An outbound `PUT`, with the instant it was dispatched and the snapshot
it carries. -/
structure PutB where
  sentAt : Nat
  snap : StateF
deriving Repr, DecidableEq

structure BridgeB where
  pending : Option TimerB
  puts : List PutB
  loadedAt : Option Nat
deriving Repr, DecidableEq

inductive EvB where
  /-- The store emitted a new snapshot at time `t` (the write effect runs
  and calls `debouncedPutGroup(groupId, store)`). -/
  | change (t : Nat) (snap : StateF)
  /-- The initial load (`GET` then store replacement) finished at time `t`. -/
  | loadDone (t : Nat)
deriving Repr, DecidableEq

def EvB.time : EvB → Nat
  | .change t _ => t
  | .loadDone t => t

/-- Fire the pending debounce timer if it is due by instant `now`. -/
def flushB (b : BridgeB) (now : Nat) : BridgeB :=
  match b.pending with
  | some tm =>
    if tm.fireAt ≤ now then
      { b with pending := none, puts := b.puts ++ [{ sentAt := tm.fireAt, snap := tm.snap }] }
    else b
  | none => b

/-- Process one event: `change` clears any pending timer and re-arms it
1000 ms out with the latest snapshot (`clearTimeout` + `setTimeout`);
`loadDone` only flips the loading flag — the source has no guard connecting
it to the write path. -/
def stepB (b : BridgeB) (e : EvB) : BridgeB :=
  let b1 := flushB b e.time
  match e with
  | .change t snap => { b1 with pending := some { fireAt := t + 1000, snap := snap } }
  | .loadDone t => { b1 with loadedAt := some t }

def initB : BridgeB := { pending := none, puts := [], loadedAt := none }

/-- Run a time-ordered event list, then let any remaining timer fire by
`endTime`. -/
def runB (events : List EvB) (endTime : Nat) : BridgeB :=
  flushB (events.foldl stepB initB) endTime

/-! ## Reachability

`ReachAnyF` is reachability from the empty store by arbitrary successful
store operations, exactly as the spec quantifies ("any sequence of store
operations") — reference arguments are unconstrained, as in the source.
`ReachF`/`ReachL` restrict to runs in which the caller only hands the store
references to entities it currently contains and freshly generated ids do
not collide (the collision-resistance the source expects of
`crypto.randomUUID()`). -/

inductive ReachAnyF : StateF → Prop where
  | empty : ReachAnyF emptyStateF
  | addTask (s : StateF) (newId : String) (inp : TaskInputF) (gid : Option String) :
      ReachAnyF s → ReachAnyF (addTaskF newId inp gid s)
  | updateTask (s s' : StateF) (id : String) (p : TaskPatchF) :
      ReachAnyF s → updateTaskF id p s = .ok s' → ReachAnyF s'
  | deleteTask (s s' : StateF) (id : String) :
      ReachAnyF s → deleteTaskF id s = .ok s' → ReachAnyF s'
  | addGroup (s : StateF) (newId name : String) :
      ReachAnyF s → ReachAnyF (addGroupF newId name s)
  | updateGroup (s s' : StateF) (id : String) (p : GroupPatchF) :
      ReachAnyF s → updateGroupF id p s = .ok s' → ReachAnyF s'
  | deleteGroup (s s' : StateF) (id : String) :
      ReachAnyF s → deleteGroupF id s = .ok s' → ReachAnyF s'
  | setTaskGroup (s s' : StateF) (tid : String) (gid : Option String) :
      ReachAnyF s → setTaskGroupF tid gid s = .ok s' → ReachAnyF s'

/-- A group reference argument is valid: absent, or naming a present group. -/
def GidOkF (gid : Option String) (s : StateF) : Prop :=
  gid = none ∨ ∃ h, gid = some h ∧ h ∈ groupIdsF s

inductive ReachF : StateF → Prop where
  | empty : ReachF emptyStateF
  | addTask (s : StateF) (newId : String) (inp : TaskInputF) (gid : Option String) :
      ReachF s → newId ∉ taskIdsF s → GidOkF gid s →
      ReachF (addTaskF newId inp gid s)
  | updateTask (s s' : StateF) (id : String) (p : TaskPatchF) :
      ReachF s → (∀ h, p.groupId = some (some h) → h ∈ groupIdsF s) →
      updateTaskF id p s = .ok s' → ReachF s'
  | deleteTask (s s' : StateF) (id : String) :
      ReachF s → deleteTaskF id s = .ok s' → ReachF s'
  | addGroup (s : StateF) (newId name : String) :
      ReachF s → ReachF (addGroupF newId name s)
  | updateGroup (s s' : StateF) (id : String) (p : GroupPatchF) :
      ReachF s → updateGroupF id p s = .ok s' → ReachF s'
  | deleteGroup (s s' : StateF) (id : String) :
      ReachF s → deleteGroupF id s = .ok s' → ReachF s'
  | setTaskGroup (s s' : StateF) (tid : String) (gid : Option String) :
      ReachF s → GidOkF gid s → setTaskGroupF tid gid s = .ok s' → ReachF s'

inductive ReachL : StateL → Prop where
  | empty : ReachL emptyStateL
  | addTask (s : StateL) (newId : String) (inp : TaskInputL) :
      ReachL s → ReachL (addTaskL newId inp s)
  | updateTask (s s' : StateL) (id : String) (p : TaskPatchL) :
      ReachL s → updateTaskL id p s = .ok s' → ReachL s'
  | deleteTask (s s' : StateL) (id : String) :
      ReachL s → deleteTaskL id s = .ok s' → ReachL s'
  | addGroup (s : StateL) (newId name : String) :
      ReachL s → ReachL (addGroupL newId name s)
  | updateGroup (s s' : StateL) (id : String) (p : GroupPatchL) :
      ReachL s → (∀ ids, p.taskIds = some ids → ∀ x ∈ ids, x ∈ taskIdsL s) →
      updateGroupL id p s = .ok s' → ReachL s'
  | deleteGroup (s s' : StateL) (id : String) :
      ReachL s → deleteGroupL id s = .ok s' → ReachL s'
  | addTaskToGroup (s s' : StateL) (tid gid : String) :
      ReachL s → tid ∈ taskIdsL s → addTaskToGroupL tid gid s = .ok s' → ReachL s'
  | removeTaskFromGroup (s s' : StateL) (tid gid : String) :
      ReachL s → removeTaskFromGroupL tid gid s = .ok s' → ReachL s'

/-! ## Lemmas about the field-variant operations -/

theorem any_key_eq_true_iff (key : α → String) (l : List α) (k : String) :
    l.any (fun x => key x == k) = true ↔ k ∈ l.map key := by
  simp only [List.any_eq_true, List.mem_map, beq_iff_eq]

theorem exOkBind (x : α) (f : α → Except String β) : (Except.ok x >>= f) = f x := rfl

def detachF (t : TaskF) : TaskF := { t with groupId := none }

theorem setTaskGroupF_of_mem (tid : String) (gid : Option String) (s : StateF)
    (h : tid ∈ s.tasks.map (·.id)) :
    setTaskGroupF tid gid s =
      .ok { s with tasks := updateFirst (·.id == tid) (fun t => { t with groupId := gid }) s.tasks } := by
  have hany : s.tasks.any (·.id == tid) = true :=
    (any_key_eq_true_iff (fun t : TaskF => t.id) s.tasks tid).mpr h
  simp only [setTaskGroupF, if_pos hany]

/-- Net effect of the nested `setTaskGroup(taskId, undefined)` calls issued
by `deleteGroup`: with unique task ids, detaching each task in `todo` one by
one detaches exactly the tasks whose id occurs in `todo`. -/
theorem foldlM_setTaskGroupF_none (todo : List TaskF) :
    ∀ (s : StateF), (s.tasks.map (·.id)).Nodup →
    (∀ t ∈ todo, t.id ∈ s.tasks.map (·.id)) →
    todo.foldlM (fun st t => setTaskGroupF t.id none st) s =
      .ok { s with tasks := s.tasks.map (fun x =>
              if x.id ∈ todo.map (·.id) then detachF x else x) } := by
  induction todo with
  | nil =>
    intro s _ _
    rw [List.foldlM_nil]
    have hs : s.tasks.map (fun x =>
        if x.id ∈ ([] : List TaskF).map (·.id) then detachF x else x) = s.tasks := by
      simp
    rw [hs]
    rfl
  | cons t todo' ih =>
    intro s hnd htodo
    have hmem : t.id ∈ s.tasks.map (·.id) := htodo t (List.mem_cons_self ..)
    rw [List.foldlM_cons, setTaskGroupF_of_mem t.id none s hmem, exOkBind]
    have hufu : updateFirst (·.id == t.id) (fun x => { x with groupId := none }) s.tasks =
        s.tasks.map (fun x => if x.id = t.id then detachF x else x) :=
      updateFirst_eq_map_of_nodup (fun x : TaskF => x.id) hnd t.id
    have hids : (updateFirst (·.id == t.id) (fun x => { x with groupId := none }) s.tasks).map (·.id) =
        s.tasks.map (·.id) :=
      map_key_updateFirst (fun x : TaskF => x.id) (·.id == t.id)
        (fun x => { x with groupId := none }) (fun _ => rfl) s.tasks
    have h1 := ih ⟨updateFirst (·.id == t.id) (fun x => { x with groupId := none }) s.tasks, s.groups⟩
      (by simpa only [hids] using hnd)
      (fun x hx => by
        simpa only [hids] using htodo x (List.mem_cons_of_mem _ hx))
    rw [h1]
    congr 1
    congr 1
    simp only [hufu, List.map_map]
    apply List.map_congr_left
    intro x _
    by_cases hxt : x.id = t.id
    · by_cases hx' : x.id ∈ todo'.map (·.id)
      · simp [hxt, hx', Function.comp, detachF]
      · simp [hxt, hx', Function.comp, detachF]
    · by_cases hx' : x.id ∈ todo'.map (·.id)
      · simp [hxt, hx', Function.comp, detachF]
      · simp [hxt, hx', Function.comp, detachF]

/-- Full characterization of a successful field-variant `deleteGroup`:
the group sequence is filtered, every task that referenced the group is
detached (other fields untouched), and no task is removed. -/
theorem deleteGroupF_ok_eq (g : String) (s : StateF)
    (hnd : (s.tasks.map (·.id)).Nodup)
    (hany : s.groups.any (·.id == g) = true)
    (hlen : (s.groups.filter (fun x => x.id != g)).length = s.groups.length - 1) :
    deleteGroupF g s = .ok
      { tasks := s.tasks.map (fun t => if t.groupId = some g then detachF t else t),
        groups := s.groups.filter (fun x => x.id != g) } := by
  have hfold := foldlM_setTaskGroupF_none (s.tasks.filter (fun t => t.groupId == some g)) s hnd
    (fun t ht => List.mem_map_of_mem (·.id) (List.mem_of_mem_filter ht))
  simp only [deleteGroupF, if_pos hany, if_pos hlen, hfold, Except.map]
  congr 2
  apply List.map_congr_left
  intro x hx
  by_cases hxg : x.groupId = some g
  · have hxmem : x.id ∈ (s.tasks.filter (fun t => t.groupId == some g)).map (·.id) :=
      List.mem_map_of_mem (·.id) (List.mem_filter.mpr ⟨hx, by simp [hxg]⟩)
    rw [if_pos hxmem, if_pos hxg]
  · have hxmem : x.id ∉ (s.tasks.filter (fun t => t.groupId == some g)).map (·.id) := by
      intro hmem
      rcases List.mem_map.mp hmem with ⟨y, hy, hyx⟩
      have hy' := List.mem_filter.mp hy
      have hyey : y = x := eq_of_mem_of_key_eq (fun z : TaskF => z.id) hnd hy'.1 hx hyx
      rw [hyey] at hy'
      exact hxg (by simpa using hy'.2)
    rw [if_neg hxmem, if_neg hxg]

/-! ## Claim C2: group-deletion cascade (field variant) -/

/-- C2: for every store state (with the store's unique-id invariant) and
every existing group id `g`, `deleteGroup(g)` removes exactly the group
with id `g`, keeps every task, and merely sets `groupId` to none on the
tasks that referenced `g`, leaving all other task fields and all other
tasks and groups unchanged. -/
theorem deleteGroupF_cascade (g : String) (s : StateF)
    (hT : (taskIdsF s).Nodup) (hG : (groupIdsF s).Nodup) (hg : g ∈ groupIdsF s) :
    deleteGroupF g s = .ok
      { tasks := s.tasks.map (fun t => if t.groupId = some g then detachF t else t),
        groups := s.groups.filter (fun x => x.id != g) } := by
  simp only [taskIdsF] at hT
  simp only [groupIdsF] at hG hg
  exact deleteGroupF_ok_eq g s hT
    ((any_key_eq_true_iff (fun x : GroupF => x.id) s.groups g).mpr hg)
    (length_filter_key_ne (fun x : GroupF => x.id) hG hg)

/-- Witness for C2: deleting group `g1` from a concrete two-task,
two-group store detaches the task that referenced `g1` and removes only
that group. -/
theorem deleteGroupF_cascade_witness :
    deleteGroupF "g1"
      { tasks := [{ id := "t1", title := "a", groupId := some "g1" },
                  { id := "t2", title := "b", groupId := none }],
        groups := [{ id := "g1", name := "Home" }, { id := "g2", name := "Work" }] } = .ok
      { tasks := [{ id := "t1", title := "a", groupId := none },
                  { id := "t2", title := "b", groupId := none }],
        groups := [{ id := "g2", name := "Work" }] } := by
  have h := deleteGroupF_cascade "g1"
    { tasks := [{ id := "t1", title := "a", groupId := some "g1" },
                { id := "t2", title := "b", groupId := none }],
      groups := [{ id := "g1", name := "Home" }, { id := "g2", name := "Work" }] }
    (by decide) (by decide) (by decide)
  exact h.trans rfl

/-! ## Claim C4: addTask validation -/

/-- C4: `addTask` with a whitespace-only title leaves the store unchanged
and raises nothing; with a non-empty trimmed title it appends exactly one
task carrying the given title verbatim and the generated id, leaving every
existing task and group untouched; if the generated id is fresh (what the
source expects of `crypto.randomUUID()`), id uniqueness is preserved. -/
theorem addTaskF_validation (s : StateF) (newId : String) (inp : TaskInputF) (gid : Option String) :
    (jsTrim inp.title = "" → addTaskF newId inp gid s = s) ∧
    (jsTrim inp.title ≠ "" →
      addTaskF newId inp gid s =
        { s with tasks := s.tasks ++
            [{ id := newId, title := inp.title, value := inp.value,
               upgrade := inp.upgrade, groupId := gid }] } ∧
      (newId ∉ taskIdsF s → (taskIdsF s).Nodup →
        (taskIdsF (addTaskF newId inp gid s)).Nodup)) := by
  constructor
  · intro h
    simp only [addTaskF, if_pos h]
  · intro h
    constructor
    · simp only [addTaskF, if_neg h]
    · intro hfresh hnd
      simp only [addTaskF, if_neg h, taskIdsF] at *
      simp only [List.map_append, List.map_cons, List.map_nil]
      simp [List.nodup_append, hnd, hfresh]

/-- Witness for C4: `addTask("   ")` is a no-op and `addTask("Buy milk")`
appends exactly that task, at a concrete one-task store. -/
theorem addTaskF_validation_witness :
    addTaskF "t9" { title := "   " } none
        { tasks := [{ id := "t1", title := "a" }], groups := [] } =
      { tasks := [{ id := "t1", title := "a" }], groups := [] } ∧
    addTaskF "t9" { title := "Buy milk" } none
        { tasks := [{ id := "t1", title := "a" }], groups := [] } =
      { tasks := [{ id := "t1", title := "a" }, { id := "t9", title := "Buy milk" }],
        groups := [] } := by
  refine ⟨(addTaskF_validation _ "t9" { title := "   " } none).1 (by decide), ?_⟩
  exact ((addTaskF_validation
    { tasks := [{ id := "t1", title := "a" }], groups := [] }
    "t9" { title := "Buy milk" } none).2 (by decide)).1.trans rfl

/-! ## Claim C9: requires-existence operations raise iff the id is absent -/

/-- C9: on a store state satisfying the unique-id invariant, `updateTask`,
`deleteTask`, `updateGroup` and `deleteGroup` throw the assertion error
exactly when no entity with the given id exists, and complete without
raising when one does. -/
theorem requiresExistence_iff (s : StateF)
    (hT : (taskIdsF s).Nodup) (hG : (groupIdsF s).Nodup)
    (id : String) (pt : TaskPatchF) (pg : GroupPatchF) :
    (exOk (updateTaskF id pt s) = true ↔ id ∈ taskIdsF s) ∧
    (exOk (deleteTaskF id s) = true ↔ id ∈ taskIdsF s) ∧
    (exOk (updateGroupF id pg s) = true ↔ id ∈ groupIdsF s) ∧
    (exOk (deleteGroupF id s) = true ↔ id ∈ groupIdsF s) := by
  simp only [taskIdsF] at hT
  simp only [groupIdsF] at hG
  refine ⟨?_, ?_, ?_, ?_⟩
  · by_cases h : id ∈ s.tasks.map (·.id)
    · have hany := (any_key_eq_true_iff (fun x : TaskF => x.id) s.tasks id).mpr h
      simp only [updateTaskF, if_pos hany, exOk, taskIdsF]
      simpa using h
    · have hany : s.tasks.any (·.id == id) = false := by
        rw [← Bool.not_eq_true]
        intro hc
        exact h ((any_key_eq_true_iff (fun x : TaskF => x.id) s.tasks id).mp hc)
      simp only [updateTaskF, hany, Bool.false_eq_true, if_false, exOk, taskIdsF]
      simpa using h
  · by_cases h : id ∈ s.tasks.map (·.id)
    · have hany := (any_key_eq_true_iff (fun x : TaskF => x.id) s.tasks id).mpr h
      have hlen := length_filter_key_ne (fun x : TaskF => x.id) hT h
      simp only [deleteTaskF, if_pos hany, if_pos hlen, exOk, taskIdsF]
      simpa using h
    · have hany : s.tasks.any (·.id == id) = false := by
        rw [← Bool.not_eq_true]
        intro hc
        exact h ((any_key_eq_true_iff (fun x : TaskF => x.id) s.tasks id).mp hc)
      simp only [deleteTaskF, hany, Bool.false_eq_true, if_false, exOk, taskIdsF]
      simpa using h
  · by_cases h : id ∈ s.groups.map (·.id)
    · have hany := (any_key_eq_true_iff (fun x : GroupF => x.id) s.groups id).mpr h
      simp only [updateGroupF, if_pos hany, exOk, groupIdsF]
      simpa using h
    · have hany : s.groups.any (·.id == id) = false := by
        rw [← Bool.not_eq_true]
        intro hc
        exact h ((any_key_eq_true_iff (fun x : GroupF => x.id) s.groups id).mp hc)
      simp only [updateGroupF, hany, Bool.false_eq_true, if_false, exOk, groupIdsF]
      simpa using h
  · by_cases h : id ∈ s.groups.map (·.id)
    · have hok := deleteGroupF_ok_eq id s hT
        ((any_key_eq_true_iff (fun x : GroupF => x.id) s.groups id).mpr h)
        (length_filter_key_ne (fun x : GroupF => x.id) hG h)
      simp only [hok, exOk, groupIdsF]
      simpa using h
    · have hany : s.groups.any (·.id == id) = false := by
        rw [← Bool.not_eq_true]
        intro hc
        exact h ((any_key_eq_true_iff (fun x : GroupF => x.id) s.groups id).mp hc)
      simp only [deleteGroupF, hany, Bool.false_eq_true, if_false, exOk, groupIdsF]
      simpa using h

/-- A concrete one-task, one-group store used by witnesses. -/
def sampleF : StateF :=
  { tasks := [{ id := "t1", title := "a" }], groups := [{ id := "g1", name := "Home" }] }

/-- Witness for C9 at `sampleF` and an id that names the task but no group. -/
theorem requiresExistence_iff_witness :
    (exOk (updateTaskF "t1" {} sampleF) = true ↔ "t1" ∈ taskIdsF sampleF) ∧
    (exOk (deleteTaskF "t1" sampleF) = true ↔ "t1" ∈ taskIdsF sampleF) ∧
    (exOk (updateGroupF "t1" {} sampleF) = true ↔ "t1" ∈ groupIdsF sampleF) ∧
    (exOk (deleteGroupF "t1" sampleF) = true ↔ "t1" ∈ groupIdsF sampleF) :=
  requiresExistence_iff sampleF (by decide) (by decide) "t1" {} {}

/-! ## Claim C8: membership idempotence (list variant) -/

theorem updateFirst_eq_self_of_find (p : α → Bool) (f : α → α) (l : List α) (a : α)
    (hfind : l.find? p = some a) (hfa : f a = a) : updateFirst p f l = l := by
  induction l with
  | nil => simp at hfind
  | cons x xs ih =>
    rw [updateFirst_cons]
    by_cases hp : p x = true
    · rw [List.find?_cons_of_pos _ hp] at hfind
      rw [if_pos hp]
      obtain rfl : x = a := by injection hfind
      rw [hfa]
    · rw [List.find?_cons_of_neg _ hp] at hfind
      rw [if_neg hp, ih hfind]

theorem updateFirst_updateFirst (p : α → Bool) (f : α → α)
    (hp : ∀ x, p (f x) = p x) (hff : ∀ x, f (f x) = f x) (l : List α) :
    updateFirst p f (updateFirst p f l) = updateFirst p f l := by
  induction l with
  | nil => rfl
  | cons x xs ih =>
    rw [updateFirst_cons]
    by_cases hpx : p x = true
    · rw [if_pos hpx, updateFirst_cons, if_pos ((hp x).trans hpx), hff]
    · rw [if_neg hpx, updateFirst_cons, if_neg hpx, ih]

/-- C8: with the named group present, `addTaskToGroup` is a strict no-op
when the task id is already in the first matching group's membership list
(no duplicate is ever created), and `removeTaskFromGroup` twice in a row
leaves exactly the state the first call produced (removing an absent id is
a no-op). -/
theorem membershipIdem (s : StateL) (g t : String) (gr : GroupL)
    (hfind : findGroupL g s = some gr) :
    (t ∈ gr.taskIds → addTaskToGroupL t g s = .ok s) ∧
    (∃ s1, removeTaskFromGroupL t g s = .ok s1 ∧ removeTaskFromGroupL t g s1 = .ok s1) := by
  simp only [findGroupL] at hfind
  have hgr_mem : gr ∈ s.groups := List.mem_of_find?_eq_some hfind
  have hpgr := List.find?_some hfind
  have hany : s.groups.any (·.id == g) = true :=
    List.any_eq_true.mpr ⟨gr, hgr_mem, hpgr⟩
  constructor
  · intro ht
    have hcontains : gr.taskIds.contains t = true := by
      simpa using ht
    have hf : appendMemberL t gr = gr := by
      simp only [appendMemberL, hcontains, if_true]
    simp only [addTaskToGroupL, if_pos hany]
    rw [updateFirst_eq_self_of_find _ _ _ _ hfind hf]
  · refine ⟨⟨s.tasks, updateFirst (·.id == g) (dropMemberL t) s.groups⟩, ?_, ?_⟩
    · simp only [removeTaskFromGroupL, if_pos hany]
    · have hids : (updateFirst (·.id == g) (dropMemberL t) s.groups).map (·.id) =
          s.groups.map (·.id) :=
        map_key_updateFirst (fun x : GroupL => x.id) (·.id == g) (dropMemberL t)
          (fun _ => rfl) s.groups
      have hany1 : (updateFirst (·.id == g) (dropMemberL t) s.groups).any (·.id == g) = true := by
        rw [any_key_eq_true_iff (fun x : GroupL => x.id), hids]
        exact (any_key_eq_true_iff (fun x : GroupL => x.id) s.groups g).mp hany
      simp only [removeTaskFromGroupL, if_pos hany1]
      congr 1
      congr 1
      apply updateFirst_updateFirst
      · intro x
        rfl
      · intro x
        simp [dropMemberL, List.filter_filter]

/-- A concrete store for the list-variant witnesses: one task, one group
that contains it. -/
def sampleL : StateL :=
  { tasks := [{ id := "t1", title := "a" }],
    groups := [{ id := "g1", name := "Home", taskIds := ["t1"] }] }

/-- Witness for C8 at `sampleL`. -/
theorem membershipIdem_witness :
    ("t1" ∈ (GroupL.mk "g1" "Home" ["t1"]).taskIds → addTaskToGroupL "t1" "g1" sampleL = .ok sampleL) ∧
    (∃ s1, removeTaskFromGroupL "t1" "g1" sampleL = .ok s1 ∧
      removeTaskFromGroupL "t1" "g1" s1 = .ok s1) :=
  membershipIdem sampleL "g1" "t1" (GroupL.mk "g1" "Home" ["t1"]) (by decide)

/-! ## Claim C3: task-deletion cascade (list variant) -/

/-- C3 evidence: deleting the only member of a group leaves the emptied
group in the store.  `sampleL` has task `t1` as the sole member of group
`g1`; after `deleteTask("t1")` the group sequence still contains `g1`
(now with an empty membership list), because the producer's returned
`groups` key — computed before the nested empty-group deletions — is
merged last and overwrites them. -/
theorem deleteTaskL_keeps_emptied_group :
    deleteTaskL "t1" sampleL =
      .ok { tasks := [], groups := [{ id := "g1", name := "Home", taskIds := [] }] } := rfl

/-! ## Claim C5: load-before-write guard -/

/-- C5 evidence: on a board whose initial load settles at t=1500ms, the
snapshot the write effect observed at t=0ms — before the load finished —
is dispatched as a `PUT` at t=1000ms.  Nothing in the write path consults
the loading state, so the pre-load (default empty) snapshot goes out and
can overwrite existing remote data. -/
theorem writeDispatchedBeforeLoad :
    (runB [EvB.change 0 emptyStateF, EvB.loadDone 1500] 2000).puts =
      [{ sentAt := 1000, snap := emptyStateF }] ∧
    (runB [EvB.change 0 emptyStateF, EvB.loadDone 1500] 2000).loadedAt = some 1500 ∧
    (1000 : Nat) < 1500 := ⟨rfl, rfl, by decide⟩

/-! ## Claim C10: GET without id enumerates every board -/

/-- C10: a `GET /api/groups` request carrying the configured credential but
no `id` query parameter returns the entire stored table — every record of
every board id. -/
theorem getWithoutIdReturnsAll (envKey : String) (db : DBSV) :
    getGroupsSV envKey (some envKey) none db = .all db := by
  simp [getGroupsSV]

/-! ## Claim C6: debounce coalescing -/

theorem foldl_stepB_changes (rest : List (Nat × StateF)) :
    ∀ (b : BridgeB) (tprev : Nat) (sprev : StateF),
    b.pending = some { fireAt := tprev + 1000, snap := sprev } →
    List.Chain' (fun a c => a.1 ≤ c.1 ∧ c.1 < a.1 + 1000) ((tprev, sprev) :: rest) →
    (rest.map (fun pr => EvB.change pr.1 pr.2)).foldl stepB b =
      { b with pending := some { fireAt := (rest.getLastD (tprev, sprev)).1 + 1000,
                                 snap := (rest.getLastD (tprev, sprev)).2 } } := by
  induction rest with
  | nil =>
    intro b tprev sprev hb _
    simp only [List.map_nil, List.foldl_nil, List.getLastD_nil]
    cases b with
    | mk pending puts loadedAt =>
      simp only at hb
      simp [hb]
  | cons pr rest' ih =>
    intro b tprev sprev hb hchain
    have hR := (List.chain'_cons.mp hchain).1
    have hchain' := (List.chain'_cons.mp hchain).2
    have hnofire : ¬ (tprev + 1000 ≤ pr.1) := by omega
    have hstep : stepB b (EvB.change pr.1 pr.2) =
        { b with pending := some { fireAt := pr.1 + 1000, snap := pr.2 } } := by
      simp only [stepB, EvB.time, flushB, hb, if_neg hnofire]
    simp only [List.map_cons, List.foldl_cons, hstep]
    have h2 := ih { b with pending := some { fireAt := pr.1 + 1000, snap := pr.2 } }
      pr.1 pr.2 rfl (by
        cases pr with
        | mk t1 s1 => exact hchain')
    simp only [h2, List.getLastD_cons]

/-- C6: for every sequence of snapshot changes in which each change occurs
within 1000 ms of the previous one, the bridge dispatches exactly one
outbound write, 1000 ms after the last change, and it carries the snapshot
current at that last change — intermediate snapshots are never sent
(each change cancels the pending timer and re-arms it). -/
theorem debounceCoalesce (t0 : Nat) (s0 : StateF) (rest : List (Nat × StateF)) (endT : Nat)
    (hchain : List.Chain' (fun a c => a.1 ≤ c.1 ∧ c.1 < a.1 + 1000) ((t0, s0) :: rest))
    (hend : (rest.getLastD (t0, s0)).1 + 1000 ≤ endT) :
    (runB (((t0, s0) :: rest).map (fun pr => EvB.change pr.1 pr.2)) endT).puts =
      [{ sentAt := (rest.getLastD (t0, s0)).1 + 1000, snap := (rest.getLastD (t0, s0)).2 }] := by
  have hfirst : stepB initB (EvB.change t0 s0) =
      { pending := some { fireAt := t0 + 1000, snap := s0 }, puts := [], loadedAt := none } := by
    simp [stepB, EvB.time, flushB, initB]
  have hfold := foldl_stepB_changes rest
    { pending := some { fireAt := t0 + 1000, snap := s0 }, puts := [], loadedAt := none }
    t0 s0 rfl hchain
  rw [runB, List.map_cons, List.foldl_cons, hfirst, hfold]
  rw [List.getLastD_eq_getLast?] at hend
  simp [flushB, hend]

/-- Witness for C6, matching the spec's example: changes at t=0, 200, 500 ms
produce exactly one write, at t=1500 ms, carrying the t=500 snapshot. -/
theorem debounceCoalesce_witness :
    (runB [EvB.change 0 emptyStateF, EvB.change 200 emptyStateF, EvB.change 500 sampleF]
        1500).puts = [{ sentAt := 1500, snap := sampleF }] := by
  have h := debounceCoalesce 0 emptyStateF [(200, emptyStateF), (500, sampleF)] 1500
    (by simp [List.chain'_cons]) (by decide)
  exact h

/-! ## Claim C7: PUT semantics -/

theorem sqlSelectSV_cons_of_eq (k id : String) (r : RowSV) (rest : DBSV)
    (h : (k == id) = true) : sqlSelectSV id ((k, r) :: rest) = some r := by
  have hfind : List.find? (fun p => p.1 == id) ((k, r) :: rest) = some (k, r) :=
    List.find?_cons_of_pos _ h
  simp only [sqlSelectSV, hfind]
  rfl

theorem sqlSelectSV_cons_of_ne (k id : String) (r : RowSV) (rest : DBSV)
    (h : (k == id) = false) : sqlSelectSV id ((k, r) :: rest) = sqlSelectSV id rest := by
  have hfind : List.find? (fun p => p.1 == id) ((k, r) :: rest) =
      List.find? (fun p => p.1 == id) rest :=
    List.find?_cons_of_neg _ (by simp [h])
  simp only [sqlSelectSV, hfind]

theorem sqlUpdateSV_cons_of_eq (k id d : String) (now : Nat) (r : RowSV) (rest : DBSV)
    (h : (k == id) = true) :
    sqlUpdateSV id d now ((k, r) :: rest) =
      (k, { r with data := some d, updated_at := now }) :: sqlUpdateSV id d now rest := by
  have hk : k = id := by simpa using h
  simp [sqlUpdateSV, hk]

theorem sqlUpdateSV_cons_of_ne (k id d : String) (now : Nat) (r : RowSV) (rest : DBSV)
    (h : (k == id) = false) :
    sqlUpdateSV id d now ((k, r) :: rest) = (k, r) :: sqlUpdateSV id d now rest := by
  have hk : ¬ k = id := by simpa using h
  simp [sqlUpdateSV, hk]

theorem sqlSelectSV_update (id d : String) (now : Nat) (db : DBSV) :
    sqlSelectSV id (sqlUpdateSV id d now db) =
      (sqlSelectSV id db).map (fun r => { r with data := some d, updated_at := now }) := by
  induction db with
  | nil => rfl
  | cons p rest ih =>
    obtain ⟨k, r⟩ := p
    by_cases h : (k == id) = true
    · rw [sqlUpdateSV_cons_of_eq _ _ _ _ _ _ h, sqlSelectSV_cons_of_eq _ _ _ _ h,
        sqlSelectSV_cons_of_eq _ _ _ _ h]
      rfl
    · have hne : (k == id) = false := by simpa using h
      rw [sqlUpdateSV_cons_of_ne _ _ _ _ _ _ hne, sqlSelectSV_cons_of_ne _ _ _ _ hne,
        sqlSelectSV_cons_of_ne _ _ _ _ hne, ih]

theorem sqlUpdateSV_of_absent (id d : String) (now : Nat) (db : DBSV)
    (h : sqlSelectSV id db = none) : sqlUpdateSV id d now db = db := by
  have hfind : db.find? (fun p => p.1 == id) = none := by
    cases hf : db.find? (fun p => p.1 == id) with
    | none => rfl
    | some q =>
      rw [sqlSelectSV, hf] at h
      simp at h
  have hall := List.find?_eq_none.mp hfind
  simp only [sqlUpdateSV]
  have hmap : db.map (fun p => if p.1 == id then
      (p.1, { p.2 with data := some d, updated_at := now }) else p) =
      db.map (fun p => p) := by
    apply List.map_congr_left
    intro p hp
    simp [hall p hp]
  rw [hmap, List.map_id']

theorem sqlUpdateSV_idem (id d : String) (now : Nat) (db : DBSV) :
    sqlUpdateSV id d now (sqlUpdateSV id d now db) = sqlUpdateSV id d now db := by
  simp only [sqlUpdateSV, List.map_map]
  apply List.map_congr_left
  intro p _
  by_cases h : (p.1 == id) = true
  · simp [Function.comp, h]
  · simp [Function.comp, h]

/-- Counterexample to C7: `PUT("b", "d")` on an empty store succeeds
(the handler answers 201 with the — absent — re-selected row) but creates
nothing: afterwards the store still has no record for `"b"`.  `PUT` is not
create-or-overwrite. -/
theorem putGroupsSV_no_create :
    (putGroupsSV "k" { id := "b", data := "d", apikey := "k" } 5 []).1 = .created none ∧
    (putGroupsSV "k" { id := "b", data := "d", apikey := "k" } 5 []).2 = [] ∧
    sqlSelectSV "b" (putGroupsSV "k" { id := "b", data := "d", apikey := "k" } 5 []).2 =
      none := ⟨rfl, rfl, rfl⟩

/-- C7 as amended: a credentialed `PUT(id, blob)` always succeeds with 201
and is idempotent, but it only overwrites: when a record for `id` exists
its stored data becomes `blob`; when none exists the store is left
unchanged — no record is created. -/
theorem putGroupsSV_overwrite_idem (envKey id blob : String) (now : Nat) (db : DBSV) :
    (∀ r, sqlSelectSV id db = some r →
      sqlSelectSV id (putGroupsSV envKey { id := id, data := blob, apikey := envKey } now db).2 =
        some { r with data := some blob, updated_at := now }) ∧
    (sqlSelectSV id db = none →
      (putGroupsSV envKey { id := id, data := blob, apikey := envKey } now db).2 = db) ∧
    (putGroupsSV envKey { id := id, data := blob, apikey := envKey } now
        (putGroupsSV envKey { id := id, data := blob, apikey := envKey } now db).2 =
      putGroupsSV envKey { id := id, data := blob, apikey := envKey } now db) := by
  have hauth : ((envKey != envKey) = true) = False := by simp
  refine ⟨?_, ?_, ?_⟩
  · intro r hr
    simp only [putGroupsSV, hauth, if_false, sqlSelectSV_update, hr]
    rfl
  · intro hr
    simp only [putGroupsSV, hauth, if_false]
    exact sqlUpdateSV_of_absent id blob now db hr
  · simp only [putGroupsSV, hauth, if_false, sqlUpdateSV_idem]

/-- Witness for C7 as amended, at a store holding one record for `"b"` and
at the empty store. -/
theorem putGroupsSV_overwrite_idem_witness :
    (∀ r, sqlSelectSV "b" [("b", { created_at := 1, updated_at := 1, data := none })] = some r →
      sqlSelectSV "b" (putGroupsSV "k" { id := "b", data := "d", apikey := "k" } 5
          [("b", { created_at := 1, updated_at := 1, data := none })]).2 =
        some { r with data := some "d", updated_at := 5 }) ∧
    (sqlSelectSV "b" [("b", { created_at := 1, updated_at := 1, data := none })] = none →
      (putGroupsSV "k" { id := "b", data := "d", apikey := "k" } 5
          [("b", { created_at := 1, updated_at := 1, data := none })]).2 =
        [("b", { created_at := 1, updated_at := 1, data := none })]) ∧
    (putGroupsSV "k" { id := "b", data := "d", apikey := "k" } 5
        (putGroupsSV "k" { id := "b", data := "d", apikey := "k" } 5
          [("b", { created_at := 1, updated_at := 1, data := none })]).2 =
      putGroupsSV "k" { id := "b", data := "d", apikey := "k" } 5
        [("b", { created_at := 1, updated_at := 1, data := none })]) :=
  putGroupsSV_overwrite_idem "k" "b" "d" 5
    [("b", { created_at := 1, updated_at := 1, data := none })]

/-! ## Claim C1: no dangling reference -/

/-- Counterexample to C1 as stated: one `addTask` on the empty store,
passing a `groupId` that names no group (the store never validates it),
reaches a state with a dangling task→group reference. -/
theorem danglingReachable :
    ReachAnyF (addTaskF "t1" { title := "a" } (some "g1") emptyStateF) ∧
    noDanglingF (addTaskF "t1" { title := "a" } (some "g1") emptyStateF) = false :=
  ⟨ReachAnyF.addTask emptyStateF "t1" { title := "a" } (some "g1") ReachAnyF.empty,
   by decide⟩

/-- Propositional form of `noDanglingF`. -/
def NoDangPF (s : StateF) : Prop :=
  ∀ t ∈ s.tasks, ∀ g, t.groupId = some g → g ∈ groupIdsF s

/-- Propositional form of `noDanglingL`. -/
def NoDangPL (s : StateL) : Prop :=
  ∀ gr ∈ s.groups, ∀ tid ∈ gr.taskIds, tid ∈ taskIdsL s

theorem taskRefOkF_iff (ids : List String) (t : TaskF) :
    taskRefOkF ids t = true ↔ ∀ g, t.groupId = some g → g ∈ ids := by
  cases h : t.groupId with
  | none => simp [taskRefOkF, h]
  | some g => simp [taskRefOkF, h]

theorem noDanglingF_iff (s : StateF) : noDanglingF s = true ↔ NoDangPF s := by
  simp only [noDanglingF, List.all_eq_true, NoDangPF]
  constructor
  · intro h t ht
    exact (taskRefOkF_iff (groupIdsF s) t).mp (h t ht)
  · intro h t ht
    exact (taskRefOkF_iff (groupIdsF s) t).mpr (h t ht)

theorem noDanglingL_iff (s : StateL) : noDanglingL s = true ↔ NoDangPL s := by
  simp only [noDanglingL, List.all_eq_true, NoDangPL, List.elem_iff]

theorem ok_of_ite {c : Prop} [Decidable c] {X s' : α} {e : String}
    (h : (if c then (.ok X : Except String α) else .error e) = .ok s') : s' = X := by
  by_cases hc : c
  · rw [if_pos hc] at h
    exact (Except.ok.inj h).symm
  · rw [if_neg hc] at h
    cases h

theorem updateTaskF_ok_inv {id : String} {p : TaskPatchF} {s s' : StateF}
    (h : updateTaskF id p s = .ok s') :
    s' = { s with tasks := updateFirst (·.id == id) (applyTaskPatchF · p) s.tasks } := by
  simp only [updateTaskF] at h
  exact ok_of_ite h

theorem deleteTaskF_ok_inv {id : String} {s s' : StateF}
    (h : deleteTaskF id s = .ok s') :
    s' = { s with tasks := s.tasks.filter (fun t => t.id != id) } := by
  simp only [deleteTaskF] at h
  by_cases hany : s.tasks.any (·.id == id) = true
  · rw [if_pos hany] at h
    exact ok_of_ite h
  · rw [if_neg hany] at h
    cases h

theorem updateGroupF_ok_inv {id : String} {p : GroupPatchF} {s s' : StateF}
    (h : updateGroupF id p s = .ok s') :
    s' = { s with groups := updateFirst (·.id == id) (applyGroupPatchF · p) s.groups } := by
  simp only [updateGroupF] at h
  exact ok_of_ite h

theorem setTaskGroupF_ok_inv {tid : String} {gid : Option String} {s s' : StateF}
    (h : setTaskGroupF tid gid s = .ok s') :
    s' = ⟨updateFirst (·.id == tid) (fun t => { t with groupId := gid }) s.tasks, s.groups⟩ := by
  simp only [setTaskGroupF] at h
  exact ok_of_ite h

theorem deleteGroupF_ok_inv {id : String} {s s' : StateF}
    (hnd : (s.tasks.map (·.id)).Nodup) (h : deleteGroupF id s = .ok s') :
    s' = { tasks := s.tasks.map (fun t => if t.groupId = some id then detachF t else t),
           groups := s.groups.filter (fun x => x.id != id) } := by
  by_cases hany : s.groups.any (·.id == id) = true
  · by_cases hlen : (s.groups.filter (fun x => x.id != id)).length = s.groups.length - 1
    · rw [deleteGroupF_ok_eq id s hnd hany hlen] at h
      exact (Except.ok.inj h).symm
    · simp only [deleteGroupF, if_pos hany, if_neg hlen] at h
      cases h
  · simp only [deleteGroupF, if_neg hany] at h
    cases h

/-- The inductive invariant of the guarded field-variant store: task ids
stay unique and no task holds a dangling group reference. -/
theorem reachF_inv {s : StateF} (h : ReachF s) :
    (taskIdsF s).Nodup ∧ NoDangPF s := by
  induction h with
  | empty =>
    refine ⟨List.nodup_nil, ?_⟩
    intro t ht
    simp [emptyStateF] at ht
  | addTask s newId inp gid hr hfresh hgid ih =>
    obtain ⟨ihN, ihD⟩ := ih
    by_cases htr : jsTrim inp.title = ""
    · have hst : addTaskF newId inp gid s = s := by simp [addTaskF, htr]
      rw [hst]
      exact ⟨ihN, ihD⟩
    · have hst : addTaskF newId inp gid s =
          ⟨s.tasks ++ [⟨newId, inp.title, inp.value, inp.upgrade, gid⟩], s.groups⟩ := by
        simp [addTaskF, htr]
      rw [hst]
      constructor
      · show ((s.tasks ++ [(⟨newId, inp.title, inp.value, inp.upgrade, gid⟩ : TaskF)]).map (·.id)).Nodup
        simp only [List.map_append, List.map_cons, List.map_nil]
        simp only [taskIdsF] at ihN hfresh
        simp [List.nodup_append, ihN, hfresh]
      · intro t ht g hg
        rcases List.mem_append.mp ht with htm | htm
        · exact ihD t htm g hg
        · obtain rfl : t = (⟨newId, inp.title, inp.value, inp.upgrade, gid⟩ : TaskF) := by
            simpa using htm
          have hg2 : gid = some g := hg
          rcases hgid with hnone | ⟨h2, hh2, hmem⟩
          · rw [hnone] at hg2
            cases hg2
          · rw [hh2] at hg2
            obtain rfl : h2 = g := by injection hg2
            exact hmem
  | updateTask s s' id p hr hp hok ih =>
    obtain ⟨ihN, ihD⟩ := ih
    obtain rfl := updateTaskF_ok_inv hok
    constructor
    · show ((updateFirst (·.id == id) (applyTaskPatchF · p) s.tasks).map (·.id)).Nodup
      rw [map_key_updateFirst (fun x : TaskF => x.id) (·.id == id)
        (applyTaskPatchF · p) (fun _ => rfl) s.tasks]
      exact ihN
    · intro t ht g hg
      rcases mem_updateFirst ht with htm | ⟨x, hx, _, rfl⟩
      · exact ihD t htm g hg
      · cases hpg : p.groupId with
        | none =>
          have hx2 : x.groupId = some g := by
            simpa [applyTaskPatchF, hpg] using hg
          exact ihD x hx g hx2
        | some o =>
          cases o with
          | none => simp [applyTaskPatchF, hpg] at hg
          | some g2 =>
            have hg2 : g2 = g := by simpa [applyTaskPatchF, hpg] using hg
            exact hg2 ▸ hp g2 hpg
  | deleteTask s s' id hr hok ih =>
    obtain ⟨ihN, ihD⟩ := ih
    obtain rfl := deleteTaskF_ok_inv hok
    constructor
    · show ((s.tasks.filter (fun t => t.id != id)).map (·.id)).Nodup
      have hsub : ((s.tasks.filter (fun t => t.id != id)).map (·.id)).Sublist
          (s.tasks.map (·.id)) := (List.filter_sublist _).map _
      exact List.Nodup.sublist hsub ihN
    · intro t ht g hg
      exact ihD t (List.mem_of_mem_filter ht) g hg
  | addGroup s newId name hr ih =>
    obtain ⟨ihN, ihD⟩ := ih
    constructor
    · exact ihN
    · intro t ht g hg
      have hmem := ihD t ht g hg
      show g ∈ (s.groups ++ [(⟨newId, name⟩ : GroupF)]).map (·.id)
      simp only [List.map_append]
      exact List.mem_append_left _ hmem
  | updateGroup s s' id p hr hok ih =>
    obtain ⟨ihN, ihD⟩ := ih
    obtain rfl := updateGroupF_ok_inv hok
    constructor
    · exact ihN
    · intro t ht g hg
      have hmem := ihD t ht g hg
      show g ∈ (updateFirst (·.id == id) (applyGroupPatchF · p) s.groups).map (·.id)
      rw [map_key_updateFirst (fun x : GroupF => x.id) (·.id == id)
        (applyGroupPatchF · p) (fun _ => rfl) s.groups]
      exact hmem
  | deleteGroup s s' id hr hok ih =>
    obtain ⟨ihN, ihD⟩ := ih
    obtain rfl := deleteGroupF_ok_inv ihN hok
    constructor
    · show ((s.tasks.map (fun t => if t.groupId = some id then detachF t else t)).map (·.id)).Nodup
      rw [List.map_map]
      have hcomp : ((fun x : TaskF => x.id) ∘
          (fun t => if t.groupId = some id then detachF t else t)) = fun x : TaskF => x.id := by
        funext x
        by_cases hx : x.groupId = some id
        · simp [hx, detachF]
        · simp [hx]
      rw [hcomp]
      exact ihN
    · intro t ht g hg
      rcases List.mem_map.mp ht with ⟨x, hx, rfl⟩
      by_cases hxg : x.groupId = some id
      · rw [if_pos hxg] at hg
        simp [detachF] at hg
      · rw [if_neg hxg] at hg
        have hne : g ≠ id := fun hc => hxg (hc ▸ hg)
        have hmem := ihD x hx g hg
        show g ∈ (s.groups.filter (fun x2 => x2.id != id)).map (·.id)
        rcases List.mem_map.mp hmem with ⟨gr, hgr, rfl⟩
        exact List.mem_map_of_mem _ (List.mem_filter.mpr ⟨hgr, by simpa using hne⟩)
  | setTaskGroup s s' tid gid hr hgid hok ih =>
    obtain ⟨ihN, ihD⟩ := ih
    obtain rfl := setTaskGroupF_ok_inv hok
    constructor
    · show ((updateFirst (·.id == tid) (fun t => { t with groupId := gid }) s.tasks).map (·.id)).Nodup
      rw [map_key_updateFirst (fun x : TaskF => x.id) (·.id == tid)
        (fun t => { t with groupId := gid }) (fun _ => rfl) s.tasks]
      exact ihN
    · intro t ht g hg
      rcases mem_updateFirst ht with htm | ⟨x, hx, _, rfl⟩
      · exact ihD t htm g hg
      · have hg2 : gid = some g := hg
        rcases hgid with hnone | ⟨h2, hh2, hmem⟩
        · rw [hnone] at hg2
          cases hg2
        · rw [hh2] at hg2
          obtain rfl : h2 = g := by injection hg2
          exact hmem

theorem updateTaskL_ok_inv {id : String} {p : TaskPatchL} {s s' : StateL}
    (h : updateTaskL id p s = .ok s') :
    s' = { s with tasks := updateFirst (·.id == id) (applyTaskPatchL · p) s.tasks } := by
  simp only [updateTaskL] at h
  exact ok_of_ite h

theorem deleteTaskL_ok_inv {id : String} {s s' : StateL}
    (h : deleteTaskL id s = .ok s') :
    s' = ⟨s.tasks.filter (fun t => t.id != id),
          s.groups.map (fun g => { g with taskIds := g.taskIds.filter (fun tid => tid != id) })⟩ := by
  simp only [deleteTaskL] at h
  by_cases hany : s.tasks.any (·.id == id) = true
  · rw [if_pos hany] at h
    exact ok_of_ite h
  · rw [if_neg hany] at h
    cases h

theorem updateGroupL_ok_inv {id : String} {p : GroupPatchL} {s s' : StateL}
    (h : updateGroupL id p s = .ok s') :
    s' = { s with groups := updateFirst (·.id == id) (applyGroupPatchL · p) s.groups } := by
  simp only [updateGroupL] at h
  exact ok_of_ite h

theorem deleteGroupL_ok_inv {id : String} {s s' : StateL}
    (h : deleteGroupL id s = .ok s') :
    s' = { s with groups := s.groups.filter (fun g => g.id != id) } := by
  simp only [deleteGroupL] at h
  by_cases hany : s.groups.any (·.id == id) = true
  · rw [if_pos hany] at h
    exact ok_of_ite h
  · rw [if_neg hany] at h
    cases h

theorem addTaskToGroupL_ok_inv {tid gid : String} {s s' : StateL}
    (h : addTaskToGroupL tid gid s = .ok s') :
    s' = { s with groups := updateFirst (·.id == gid) (appendMemberL tid) s.groups } := by
  simp only [addTaskToGroupL] at h
  exact ok_of_ite h

theorem removeTaskFromGroupL_ok_inv {tid gid : String} {s s' : StateL}
    (h : removeTaskFromGroupL tid gid s = .ok s') :
    s' = { s with groups := updateFirst (·.id == gid) (dropMemberL tid) s.groups } := by
  simp only [removeTaskFromGroupL] at h
  exact ok_of_ite h

/-- The invariant of the guarded list-variant store: no group's membership
list mentions an absent task. -/
theorem reachL_inv {s : StateL} (h : ReachL s) : NoDangPL s := by
  induction h with
  | empty =>
    intro gr hgr
    simp [emptyStateL] at hgr
  | addTask s newId inp hr ih =>
    by_cases htr : jsTrim inp.title = ""
    · have hst : addTaskL newId inp s = s := by simp [addTaskL, htr]
      rw [hst]
      exact ih
    · have hst : addTaskL newId inp s =
          ⟨s.tasks ++ [⟨newId, inp.title, inp.value, inp.upgrade⟩], s.groups⟩ := by
        simp [addTaskL, htr]
      rw [hst]
      intro gr hgr tid htid
      have hmem := ih gr hgr tid htid
      show tid ∈ (s.tasks ++ [(⟨newId, inp.title, inp.value, inp.upgrade⟩ : TaskL)]).map (·.id)
      simp only [List.map_append]
      exact List.mem_append_left _ hmem
  | updateTask s s' id p hr hok ih =>
    obtain rfl := updateTaskL_ok_inv hok
    intro gr hgr tid htid
    have hmem := ih gr hgr tid htid
    show tid ∈ (updateFirst (·.id == id) (applyTaskPatchL · p) s.tasks).map (·.id)
    rw [map_key_updateFirst (fun x : TaskL => x.id) (·.id == id)
      (applyTaskPatchL · p) (fun _ => rfl) s.tasks]
    exact hmem
  | deleteTask s s' id hr hok ih =>
    obtain rfl := deleteTaskL_ok_inv hok
    intro gr hgr tid htid
    rcases List.mem_map.mp hgr with ⟨g0, hg0, rfl⟩
    have htid' := List.mem_filter.mp htid
    have hne : (tid != id) = true := htid'.2
    have hmem := ih g0 hg0 tid htid'.1
    show tid ∈ (s.tasks.filter (fun t => t.id != id)).map (·.id)
    rcases List.mem_map.mp hmem with ⟨t0, ht0, rfl⟩
    exact List.mem_map_of_mem _ (List.mem_filter.mpr ⟨ht0, hne⟩)
  | addGroup s newId name hr ih =>
    intro gr hgr tid htid
    rcases List.mem_append.mp hgr with hgr | hgr
    · exact ih gr hgr tid htid
    · obtain rfl : gr = (⟨newId, name, []⟩ : GroupL) := by simpa using hgr
      cases htid
  | updateGroup s s' id p hr hp hok ih =>
    obtain rfl := updateGroupL_ok_inv hok
    intro gr hgr tid htid
    rcases mem_updateFirst hgr with hgm | ⟨g0, hg0, _, rfl⟩
    · exact ih gr hgm tid htid
    · cases hpt : p.taskIds with
      | none =>
        have htid0 : tid ∈ g0.taskIds := by
          simpa [applyGroupPatchL, hpt] using htid
        exact ih g0 hg0 tid htid0
      | some ids =>
        have htid0 : tid ∈ ids := by
          simpa [applyGroupPatchL, hpt] using htid
        exact hp ids hpt tid htid0
  | deleteGroup s s' id hr hok ih =>
    obtain rfl := deleteGroupL_ok_inv hok
    intro gr hgr tid htid
    exact ih gr (List.mem_of_mem_filter hgr) tid htid
  | addTaskToGroup s s' tid2 gid hr htid2 hok ih =>
    obtain rfl := addTaskToGroupL_ok_inv hok
    intro gr hgr tid htid
    rcases mem_updateFirst hgr with hgm | ⟨g0, hg0, _, rfl⟩
    · exact ih gr hgm tid htid
    · by_cases hc : tid2 ∈ g0.taskIds
      · have htid0 : tid ∈ g0.taskIds := by
          simpa [appendMemberL, hc] using htid
        exact ih g0 hg0 tid htid0
      · have htid0 : tid ∈ g0.taskIds ++ [tid2] := by
          simpa [appendMemberL, hc] using htid
        rcases List.mem_append.mp htid0 with htid0 | htid0
        · exact ih g0 hg0 tid htid0
        · obtain rfl : tid = tid2 := by simpa using htid0
          exact htid2
  | removeTaskFromGroup s s' tid2 gid hr hok ih =>
    obtain rfl := removeTaskFromGroupL_ok_inv hok
    intro gr hgr tid htid
    rcases mem_updateFirst hgr with hgm | ⟨g0, hg0, _, rfl⟩
    · exact ih gr hgm tid htid
    · have htid0 : tid ∈ g0.taskIds := by
        have := List.mem_filter.mp (show tid ∈ g0.taskIds.filter (fun x => x != tid2) from htid)
        exact this.1
      exact ih g0 hg0 tid htid0

/-- C1 as amended: the no-dangling-reference invariant holds in every state
reachable from the empty store when reference arguments are valid — every
group id handed to `addTask`, `updateTask` or `setTaskGroup` names a present
group, every task id handed to `addTaskToGroup` and every membership list
handed to `updateGroup` names present tasks, and generated task ids are
fresh; the store itself never validates these arguments, so the unrestricted
claim fails (see the counterexample). -/
theorem noDangling_reachable (s : StateF) (s2 : StateL)
    (h1 : ReachF s) (h2 : ReachL s2) :
    noDanglingF s = true ∧ noDanglingL s2 = true :=
  ⟨(noDanglingF_iff s).mpr (reachF_inv h1).2, (noDanglingL_iff s2).mpr (reachL_inv h2)⟩

/-- Witness for the amended C1, at the empty stores of both variants. -/
theorem noDangling_reachable_witness :
    noDanglingF emptyStateF = true ∧ noDanglingL emptyStateL = true :=
  noDangling_reachable emptyStateF emptyStateL ReachF.empty ReachL.empty
